import Mathlib

/-!
Verification of the Kraken exchange client (`include/at/kraken.hpp`).

The header under `src/` declares the client's private helpers (`_nonce`,
`_sign`, `_str2pair`, `_sanitize_pair`, `_minTradable`, `_request`) and the
public market operations (`place`, `cancel`, ...), and defines inline the
static `_minimumLimits` table.  The bodies of the helpers and operations are
not part of the sources at hand, so they are modelled from the specification
(section 4 of the design document); the `_minimumLimits` table is transcribed
directly from the header.
-/

/-- Decimal digits of `n`, most significant first, zero padded (and truncated)
to exactly `w` digits: the model of `std::setw(w)` with `std::setfill('0')`
output of a number known to fit in `w` digits. -/
def digitsPad : Nat → Nat → List Nat
  | 0, _ => []
  | w + 1, n => digitsPad w (n / 10) ++ [n % 10]

/-- Numeric value of a most-significant-first digit list. -/
def valOfDigits (ds : List Nat) : Nat := ds.foldl (fun a d => 10 * a + d) 0

/-- Byte view of a string (the characters of the ASCII strings the client
signs, as numbers). -/
def strBytes (s : String) : List Nat := s.data.map Char.toNat

/-- The base64 alphabet. -/
def b64Alphabet : List Char :=
  "ABCDEFGHIJKLMNOPQRSTUVWXYZabcdefghijklmnopqrstuvwxyz0123456789+/".data

/-- Character for a 6-bit value. -/
def b64chr (n : Nat) : Char := b64Alphabet.getD n '?'

/-- Base64 encoding of a byte list, three bytes to four characters, with
trailing `=` padding. -/
def b64encodeList : List Nat → List Char
  | [] => []
  | [a] => [b64chr (a / 4), b64chr (a % 4 * 16), '=', '=']
  | [a, b] => [b64chr (a / 4), b64chr (a % 4 * 16 + b / 16), b64chr (b % 16 * 4), '=']
  | a :: b :: c :: rest =>
    b64chr (a / 4) :: b64chr (a % 4 * 16 + b / 16) :: b64chr (b % 16 * 4 + c / 64)
      :: b64chr (c % 64) :: b64encodeList rest

/-- Base64 encoding, as a string. -/
def b64encode (bs : List Nat) : String := ⟨b64encodeList bs⟩

/-- Index of a character in the base64 alphabet. -/
def b64val (c : Char) : Option Nat := b64Alphabet.findIdx? (· == c)

/-- Base64 decoding of a character list, four characters to three bytes,
honouring trailing `=` padding; `none` on any malformed input. -/
def b64decodeList : List Char → Option (List Nat)
  | [] => some []
  | [a, b, '=', '='] =>
    match b64val a, b64val b with
    | some va, some vb => some [va * 4 + vb / 16]
    | _, _ => none
  | [a, b, c, '='] =>
    match b64val a, b64val b, b64val c with
    | some va, some vb, some vc => some [va * 4 + vb / 16, vb % 16 * 16 + vc / 4]
    | _, _, _ => none
  | a :: b :: c :: d :: rest =>
    match b64val a, b64val b, b64val c, b64val d, b64decodeList rest with
    | some va, some vb, some vc, some vd, some tl =>
      some ((va * 4 + vb / 16) :: (vb % 16 * 16 + vc / 4) :: (vc % 4 * 64 + vd) :: tl)
    | _, _, _, _, _ => none
  | _ => none

/-- Base64 decoding of a string. -/
def b64decode (s : String) : Option (List Nat) := b64decodeList s.data

/-- HMAC over an abstract hash `H` with the given block size, per RFC 2104:
`H((K xor opad) ++ H((K xor ipad) ++ msg))` where the key is hashed if longer
than a block and zero padded to the block size. -/
def hmacWith (H : List Nat → List Nat) (blockSize : Nat) (key msg : List Nat) : List Nat :=
  let k0 := if blockSize < key.length then H key else key
  let k := k0 ++ List.replicate (blockSize - k0.length) 0
  let op := k.map (fun b => Nat.xor b 92)
  let ip := k.map (fun b => Nat.xor b 54)
  H (op ++ H (ip ++ msg))

namespace Kraken

/-- Modelled from the spec: the body of `Kraken::_nonce` is not under `src/`;
only its declaration and a comment describing the zero-padded 10-digit seconds
part followed by the 9-digit nanoseconds part are. The clock is modelled as
the instant `t` in nanoseconds since the epoch read at the call: the seconds
part is `t / 10^9`, zero padded to 10 digits, followed by the 9-digit
sub-second component `t % 10^9` of the same high-resolution reading. -/
def nonceDigits (t : Nat) : List Nat :=
  digitsPad 10 (t / 10 ^ 9) ++ digitsPad 9 (t % 10 ^ 9)

/-- Zero-padded `w`-digit decimal rendering (`std::setw` + `std::setfill('0')`). -/
def zeroPad (w n : Nat) : String := ⟨(digitsPad w n).map Nat.digitChar⟩

/-- Modelled from the spec: the nonce string returned by `Kraken::_nonce` for
a clock reading of `t` nanoseconds since the epoch. -/
def nonceOf (t : Nat) : String :=
  zeroPad 10 (t / 10 ^ 9) ++ zeroPad 9 (t % 10 ^ 9)

/-- Hash primitives the signer is parameterized by (SHA-256 and SHA-512 as
provided by `at::crypt`, whose implementation is outside the core). -/
structure HashPrims where
  sha256 : List Nat → List Nat
  sha512 : List Nat → List Nat

/-- Modelled from the spec: the body of `Kraken::_sign` is not under `src/`
(only its declaration). Per the spec the signature is
`base64(HMAC-SHA512(key = base64-decode(api_secret), message = path || SHA256(nonce || postdata)))`,
the HMAC key being the base64-decoded API secret; a secret that does not
base64-decode is a configuration error (`none`) raised before any network
call. (The header comment above the declaration instead writes
`base64decode(_api_key)`; the spec mandates the decoded `_api_secret`.) -/
def sign (h : HashPrims) (apiSecret path nonce postdata : String) : Option String :=
  match b64decode apiSecret with
  | none => none
  | some key =>
      some (b64encode (hmacWith h.sha512 128 key
        (strBytes path ++ h.sha256 (strBytes nonce ++ strBytes postdata))))

/-- The static `_minimumLimits` table, transcribed from `kraken.hpp` lines
51-57 (amounts as exact rationals in place of the C++ double literals). -/
def minimumLimits : List (String × ℚ) :=
  [("REP", 0.3), ("XBT", 0.002), ("BTC", 0.002), ("BCH", 0.002),
   ("DASH", 0.03), ("DOGE", 3000), ("EOS", 3), ("ETH", 0.02),
   ("ETC", 0.3), ("GNO", 0.03), ("ICN", 2), ("LTC", 0.1),
   ("MLN", 0.1), ("XMR", 0.1), ("XRP", 30), ("XLM", 300),
   ("ZEC", 0.03), ("USDT", 5)]

/-- Modelled from the spec: the body of `Kraken::_minTradable` is not under
`src/`. It looks the symbol up in the static table; a symbol absent from the
table has no known minimum (`none`) and the caller fails closed. -/
def minTradable (symbol : String) : Option ℚ := minimumLimits.lookup symbol

/-- An `at::currency_pair_t`: ordered base and quote symbols. -/
structure CurrencyPair where
  base : String
  quote : String
deriving DecidableEq

/-- Modelled from the spec: `Kraken::_sanitize_pair` (body not under `src/`;
the header comment reads: replace inputs symbol BTC with XBT). Any symbol
equal to BTC becomes the exchange-internal XBT; all others pass through. -/
def sanitizeSymbol (s : String) : String := if s = "BTC" then "XBT" else s

/-- Symbol sanitization applied to both members of a pair, in place. -/
def sanitizePair (p : CurrencyPair) : CurrencyPair :=
  ⟨sanitizeSymbol p.base, sanitizeSymbol p.quote⟩

/-- First `n` characters of a string. -/
def strTake (s : String) (n : Nat) : String := ⟨s.data.take n⟩

/-- All but the first `n` characters of a string. -/
def strDrop (s : String) (n : Nat) : String := ⟨s.data.drop n⟩

/-- Modelled from the spec: helper for `_str2pair`; tries split points
`i, i - 1, ..., 1` (longest base symbol first) and returns the first split
whose two halves are both known symbols. -/
def str2pairGo (syms : List String) (s : String) : Nat → Option CurrencyPair
  | 0 => none
  | i + 1 =>
    if strTake s (i + 1) ∈ syms ∧ strDrop s (i + 1) ∈ syms then
      some ⟨strTake s (i + 1), strDrop s (i + 1)⟩
    else str2pairGo syms s i

/-- Modelled from the spec: the body of `Kraken::_str2pair` is not under
`src/` (the header comment reads: converts a XXXYYY string in a
currency_pair_t, if XXX and YYY are known symbols). The concatenated string
is split at the longest base whose two halves both belong to the known-symbol
set; `none` models the parse error raised when no valid split exists. -/
def str2pair (syms : List String) (s : String) : Option CurrencyPair :=
  match s.data.length with
  | 0 => none
  | n + 1 => str2pairGo syms s n

/-- The fields of `at::order_t` that the modelled operations inspect: the
exchange-assigned identifier (empty until placed), the pair and the volume. -/
structure OrderT where
  txid : String
  pair : CurrencyPair
  volume : ℚ
deriving DecidableEq

/-- Outcome of `Kraken::place`: either a local validation error raised before
any network traffic, or the authenticated placement request that goes out. -/
inductive PlaceOutcome where
  | localError : String → PlaceOutcome
  | networkCall : CurrencyPair → ℚ → PlaceOutcome
deriving DecidableEq

/-- Modelled from the spec: the body of `Kraken::place` is not under `src/`.
The pair is normalized, the minimum-limits table is consulted for the base
asset, and an unknown minimum or an undersized volume is rejected locally,
before any network request is built. -/
def place (o : OrderT) : PlaceOutcome :=
  let p := sanitizePair o.pair
  match minTradable p.base with
  | none => .localError "unknown minimum"
  | some m =>
    if o.volume < m then .localError "volume below minimum"
    else .networkCall p o.volume

/-- Outcome of `Kraken::cancel`: a local validation error, or the cancel
request keyed by the order's identifier. -/
inductive CancelOutcome where
  | localError : String → CancelOutcome
  | networkCall : String → CancelOutcome
deriving DecidableEq

/-- Modelled from the spec: the body of `Kraken::cancel` is not under `src/`
(the header comment reads: cancel the specified order identified by
order.txid). An order with an empty identifier (never placed) is rejected
locally before any network call. -/
def cancel (o : OrderT) : CancelOutcome :=
  if o.txid = "" then .localError "empty txid" else .networkCall o.txid

/-- Transport reply as the request builder sees it: the HTTP status plus the
decoded JSON body's `error` list and `result` payload. -/
structure HttpReply (α : Type) where
  status : Nat
  errors : List String
  result : α
deriving DecidableEq

/-- Result of an authenticated call: the `result` payload on success, a
server error carrying the HTTP status, or a response error carrying the
exchange's error strings. -/
inductive ReqOutcome (α : Type) where
  | ok : α → ReqOutcome α
  | serverError : Nat → ReqOutcome α
  | responseError : List String → ReqOutcome α
deriving DecidableEq

/-- Modelled from the spec: the response-interpretation step of
`Kraken::_request` (body not under `src/`; the header documents the two error
kinds). A non-200 status raises a server error; a non-empty `error` list in a
200 body raises a response error; otherwise the `result` field is returned. -/
def interpretReply {α : Type} (r : HttpReply α) : ReqOutcome α :=
  if r.status ≠ 200 then .serverError r.status
  else if r.errors ≠ [] then .responseError r.errors
  else .ok r.result

end Kraken

theorem digitsPad_length (w n : Nat) : (digitsPad w n).length = w := by
  induction w generalizing n with
  | zero => rfl
  | succ w ih => simp [digitsPad, ih]

theorem digitsPad_lt (w n : Nat) : ∀ d ∈ digitsPad w n, d < 10 := by
  induction w generalizing n with
  | zero => intro d hd; simp [digitsPad] at hd
  | succ w ih =>
    intro d hd
    simp only [digitsPad, List.mem_append, List.mem_singleton] at hd
    rcases hd with hd | hd
    · exact ih _ d hd
    · subst hd; exact Nat.mod_lt _ (by omega)

theorem foldl_digits_acc (ds : List Nat) (a : Nat) :
    ds.foldl (fun a d => 10 * a + d) a
      = a * 10 ^ ds.length + ds.foldl (fun a d => 10 * a + d) 0 := by
  induction ds generalizing a with
  | nil => simp
  | cons d ds ih =>
    simp only [List.foldl_cons, List.length_cons]
    rw [ih (10 * a + d), ih (10 * 0 + d)]
    ring

theorem valOfDigits_cons (d : Nat) (ds : List Nat) :
    valOfDigits (d :: ds) = d * 10 ^ ds.length + valOfDigits ds := by
  unfold valOfDigits
  rw [List.foldl_cons, foldl_digits_acc]
  ring

theorem valOfDigits_append (xs ys : List Nat) :
    valOfDigits (xs ++ ys) = valOfDigits xs * 10 ^ ys.length + valOfDigits ys := by
  unfold valOfDigits
  rw [List.foldl_append, foldl_digits_acc]

theorem valOfDigits_lt_pow (ds : List Nat) (h : ∀ d ∈ ds, d < 10) :
    valOfDigits ds < 10 ^ ds.length := by
  induction ds with
  | nil => simp [valOfDigits]
  | cons d ds ih =>
    rw [valOfDigits_cons]
    have hd : d < 10 := h d (List.mem_cons_self d ds)
    have hds : valOfDigits ds < 10 ^ ds.length := ih fun x hx => h x (List.mem_cons_of_mem d hx)
    have : d * 10 ^ ds.length ≤ 9 * 10 ^ ds.length := Nat.mul_le_mul_right _ (by omega)
    calc d * 10 ^ ds.length + valOfDigits ds
        < d * 10 ^ ds.length + 10 ^ ds.length := by omega
      _ ≤ 9 * 10 ^ ds.length + 10 ^ ds.length := by omega
      _ = 10 ^ (ds.length + 1) := by ring
      _ = 10 ^ (d :: ds).length := by simp

theorem valOfDigits_digitsPad (w n : Nat) : valOfDigits (digitsPad w n) = n % 10 ^ w := by
  induction w generalizing n with
  | zero => simp [digitsPad, valOfDigits, Nat.mod_one]
  | succ w ih =>
    simp only [digitsPad]
    rw [valOfDigits_append, ih]
    have h1 : valOfDigits [n % 10] = n % 10 := by simp [valOfDigits]
    have h2 : (10 : Nat) ^ (w + 1) = 10 * 10 ^ w := by ring
    have h3 : n % (10 * 10 ^ w) = n % 10 + 10 * (n / 10 % 10 ^ w) := Nat.mod_mul
    simp only [List.length_cons, List.length_nil, pow_one, h1, h2, h3]
    omega

theorem valOfDigits_digitsPad_of_lt (w n : Nat) (h : n < 10 ^ w) :
    valOfDigits (digitsPad w n) = n := by
  rw [valOfDigits_digitsPad, Nat.mod_eq_of_lt h]

theorem digitChar_lt_iff :
    ∀ d < 10, ∀ e < 10, (Nat.digitChar d < Nat.digitChar e ↔ d < e) := by decide

theorem digitChar_isDigit : ∀ d < 10, (Nat.digitChar d).isDigit = true := by decide

theorem mul_pow_add_lt_of_digit_lt {a b v₁ v₂ L : Nat} (hab : a < b) (hv : v₁ < 10 ^ L) :
    a * 10 ^ L + v₁ < b * 10 ^ L + v₂ :=
  calc a * 10 ^ L + v₁ < a * 10 ^ L + 10 ^ L := by omega
    _ = (a + 1) * 10 ^ L := by ring
    _ ≤ b * 10 ^ L := Nat.mul_le_mul_right _ (by omega)
    _ ≤ b * 10 ^ L + v₂ := Nat.le_add_right _ _

/-- On equal-length digit lists, lexicographic order of the rendered
characters agrees with numeric order of the encoded values. -/
theorem map_digitChar_lex_iff (ds : List Nat) : ∀ (es : List Nat),
    ds.length = es.length → (∀ d ∈ ds, d < 10) → (∀ e ∈ es, e < 10) →
    (List.Lex (· < ·) (ds.map Nat.digitChar) (es.map Nat.digitChar)
      ↔ valOfDigits ds < valOfDigits es) := by
  induction ds with
  | nil =>
    intro es hlen _ _
    cases es with
    | nil => exact iff_of_false (List.Lex.not_nil_right _ _) (by simp)
    | cons e es => simp at hlen
  | cons d ds ih =>
    intro es hlen hds hes
    cases es with
    | nil => simp at hlen
    | cons e es =>
      have hlen' : ds.length = es.length := by simpa using hlen
      have hd : d < 10 := hds d (List.mem_cons_self d ds)
      have he : e < 10 := hes e (List.mem_cons_self e es)
      have hds' : ∀ x ∈ ds, x < 10 := fun x hx => hds x (List.mem_cons_of_mem d hx)
      have hes' : ∀ x ∈ es, x < 10 := fun x hx => hes x (List.mem_cons_of_mem e hx)
      have hvd : valOfDigits ds < 10 ^ es.length := hlen' ▸ valOfDigits_lt_pow ds hds'
      have hve : valOfDigits es < 10 ^ es.length := valOfDigits_lt_pow es hes'
      simp only [List.map_cons]
      rw [valOfDigits_cons, valOfDigits_cons, hlen']
      rcases Nat.lt_trichotomy d e with hlt | heq | hgt
      · refine iff_of_true ?_ ?_
        · exact List.Lex.rel ((digitChar_lt_iff d hd e he).mpr hlt)
        · exact mul_pow_add_lt_of_digit_lt hlt hvd
      · subst heq
        rw [List.Lex.cons_iff, ih es hlen' hds' hes']
        omega
      · refine iff_of_false ?_ ?_
        · exact fun h => asymm (List.Lex.rel ((digitChar_lt_iff e he d hd).mpr hgt)) h
        · have := @mul_pow_add_lt_of_digit_lt e d (valOfDigits es) (valOfDigits ds)
            es.length hgt hve
          omega

/-- String order is lexicographic order of the character data. -/
theorem string_lt_iff_lex (s t : String) :
    s < t ↔ List.Lex (· < ·) s.data t.data :=
  by rw [String.lt_iff_toList_lt]; exact Iff.rfl

theorem nonceOf_data (t : Nat) :
    (Kraken.nonceOf t).data = (Kraken.nonceDigits t).map Nat.digitChar := by
  simp [Kraken.nonceOf, Kraken.zeroPad, Kraken.nonceDigits, String.data_append]

theorem nonceDigits_length (t : Nat) : (Kraken.nonceDigits t).length = 19 := by
  simp [Kraken.nonceDigits, digitsPad_length]

theorem nonceDigits_lt (t : Nat) : ∀ d ∈ Kraken.nonceDigits t, d < 10 := by
  intro d hd
  simp only [Kraken.nonceDigits, List.mem_append] at hd
  rcases hd with h | h
  · exact digitsPad_lt _ _ d h
  · exact digitsPad_lt _ _ d h

theorem valOfDigits_nonceDigits (t : Nat) (h : t < 10 ^ 19) :
    valOfDigits (Kraken.nonceDigits t) = t := by
  unfold Kraken.nonceDigits
  rw [valOfDigits_append, digitsPad_length, valOfDigits_digitsPad, valOfDigits_digitsPad]
  have e9 : (10 : Nat) ^ 9 = 1000000000 := by norm_num
  have e10 : (10 : Nat) ^ 10 = 10000000000 := by norm_num
  have e19 : (10 : Nat) ^ 19 = 10000000000000000000 := by norm_num
  rw [e9, e10] at *
  rw [e19] at h
  omega

theorem lookup_eq_none_of_not_mem_keys {β : Type} (l : List (String × β)) (a : String)
    (h : a ∉ l.map Prod.fst) : l.lookup a = none := by
  induction l with
  | nil => rfl
  | cons p l ih =>
    obtain ⟨k, v⟩ := p
    simp only [List.map_cons, List.mem_cons] at h
    push_neg at h
    have hb : (a == k) = false := beq_eq_false_iff_ne.mpr h.1
    simp only [List.lookup, hb]
    exact ih h.2

theorem str2pairGo_some (syms : List String) (s : String) :
    ∀ (i : Nat) (p : Kraken.CurrencyPair), Kraken.str2pairGo syms s i = some p →
      ∃ j, 1 ≤ j ∧ j ≤ i ∧ p = ⟨Kraken.strTake s j, Kraken.strDrop s j⟩ ∧
        Kraken.strTake s j ∈ syms ∧ Kraken.strDrop s j ∈ syms ∧
        ∀ k, j < k → k ≤ i → ¬(Kraken.strTake s k ∈ syms ∧ Kraken.strDrop s k ∈ syms) := by
  intro i
  induction i with
  | zero => intro p h; simp [Kraken.str2pairGo] at h
  | succ i ih =>
    intro p h
    by_cases hc : Kraken.strTake s (i + 1) ∈ syms ∧ Kraken.strDrop s (i + 1) ∈ syms
    · unfold Kraken.str2pairGo at h
      rw [if_pos hc] at h
      refine ⟨i + 1, by omega, Nat.le_refl _, (Option.some_inj.mp h).symm, hc.1, hc.2, ?_⟩
      intro k hk1 hk2
      exact absurd (Nat.lt_of_lt_of_le hk1 hk2) (Nat.lt_irrefl _)
    · unfold Kraken.str2pairGo at h
      rw [if_neg hc] at h
      obtain ⟨j, hj1, hj2, hp, ht, hd, hmax⟩ := ih p h
      refine ⟨j, hj1, by omega, hp, ht, hd, ?_⟩
      intro k hk1 hk2
      rcases Nat.lt_or_ge k (i + 1) with hlt | hge
      · exact hmax k hk1 (by omega)
      · have hk : k = i + 1 := by omega
        subst hk
        exact hc

theorem str2pairGo_none (syms : List String) (s : String) :
    ∀ i : Nat,
      (∀ j, 1 ≤ j → j ≤ i → ¬(Kraken.strTake s j ∈ syms ∧ Kraken.strDrop s j ∈ syms)) →
      Kraken.str2pairGo syms s i = none := by
  intro i
  induction i with
  | zero => intro _; rfl
  | succ i ih =>
    intro h
    have hc : ¬(Kraken.strTake s (i + 1) ∈ syms ∧ Kraken.strDrop s (i + 1) ∈ syms) :=
      h (i + 1) (by omega) (Nat.le_refl _)
    unfold Kraken.str2pairGo
    rw [if_neg hc]
    exact ih (fun j hj1 hj2 => h j hj1 (by omega))

/-- C1: for every path, nonce and POST body, the request signer returns
`base64(HMAC-SHA512(key = base64-decode(api_secret), message = path || SHA256(nonce || postBody)))`,
i.e. the HMAC key is the base64-decoded API secret, not the API key. -/
theorem kraken_sign_formula (h : Kraken.HashPrims) (apiSecret path nonce postdata : String)
    (key : List Nat) (hk : b64decode apiSecret = some key) :
    Kraken.sign h apiSecret path nonce postdata
      = some (b64encode (hmacWith h.sha512 128 key
          (strBytes path ++ h.sha256 (strBytes nonce ++ strBytes postdata)))) := by
  simp [Kraken.sign, hk]

theorem kraken_sign_formula_instance :
    b64decode "" = some []
      ∧ Kraken.sign ⟨fun bs => bs, fun bs => bs⟩ "" "/0/private/Balance" "123" "nonce=123"
        = some (b64encode (hmacWith (fun bs => bs) 128 []
            (strBytes "/0/private/Balance"
              ++ (strBytes "123" ++ strBytes "nonce=123")))) :=
  ⟨rfl, kraken_sign_formula ⟨fun bs => bs, fun bs => bs⟩ "" "/0/private/Balance" "123"
    "nonce=123" [] rfl⟩

/-- C2: on one client instance, successive nonce calls produce strictly
increasing nonces: for high-resolution clock readings `t₁ < t₂` (nanosecond
resolution discriminates calls within the same second) with the 19-digit
width respected, the later nonce is numerically greater, and
string-lexicographic order of the fixed-width strings agrees with numeric
order. -/
theorem kraken_nonce_strict_increasing (t₁ t₂ : Nat) (hw : t₂ < 10 ^ 19) (ht : t₁ < t₂) :
    valOfDigits (Kraken.nonceDigits t₁) < valOfDigits (Kraken.nonceDigits t₂)
      ∧ Kraken.nonceOf t₁ < Kraken.nonceOf t₂
      ∧ (Kraken.nonceOf t₁ < Kraken.nonceOf t₂
          ↔ valOfDigits (Kraken.nonceDigits t₁) < valOfDigits (Kraken.nonceDigits t₂)) := by
  have h1 : t₁ < 10 ^ 19 := Nat.lt_trans ht hw
  have hval : valOfDigits (Kraken.nonceDigits t₁) < valOfDigits (Kraken.nonceDigits t₂) := by
    rw [valOfDigits_nonceDigits t₁ h1, valOfDigits_nonceDigits t₂ hw]
    exact ht
  have hlex : Kraken.nonceOf t₁ < Kraken.nonceOf t₂ := by
    rw [string_lt_iff_lex, nonceOf_data, nonceOf_data,
      map_digitChar_lex_iff _ _ (by rw [nonceDigits_length, nonceDigits_length])
        (nonceDigits_lt t₁) (nonceDigits_lt t₂)]
    exact hval
  exact ⟨hval, hlex, iff_of_true hlex hval⟩

theorem kraken_nonce_strict_increasing_instance :
    valOfDigits (Kraken.nonceDigits 1759999999123456789)
        < valOfDigits (Kraken.nonceDigits 1759999999123456790)
      ∧ Kraken.nonceOf 1759999999123456789 < Kraken.nonceOf 1759999999123456790 :=
  let h := kraken_nonce_strict_increasing 1759999999123456789 1759999999123456790
    (by norm_num) (by norm_num)
  ⟨h.1, h.2.1⟩

/-- C3: for every authenticated request, a non-200 transport status raises a
server error carrying the status code; a 200 status with a non-empty decoded
error list raises a response error carrying the exchange's error strings;
otherwise the body's `result` field is returned — and the outcome is always
exactly one of these three. -/
theorem kraken_request_outcomes {α : Type} (r : Kraken.HttpReply α) :
    (r.status ≠ 200 → Kraken.interpretReply r = .serverError r.status)
      ∧ (r.status = 200 → r.errors ≠ [] → Kraken.interpretReply r = .responseError r.errors)
      ∧ (r.status = 200 → r.errors = [] → Kraken.interpretReply r = .ok r.result)
      ∧ (Kraken.interpretReply r = .ok r.result
          ∨ Kraken.interpretReply r = .serverError r.status
          ∨ Kraken.interpretReply r = .responseError r.errors) := by
  refine ⟨fun h => ?_, fun h1 h2 => ?_, fun h1 h2 => ?_, ?_⟩
  · simp [Kraken.interpretReply, h]
  · simp [Kraken.interpretReply, h1, h2]
  · simp [Kraken.interpretReply, h1, h2]
  · by_cases hs : r.status = 200
    · by_cases he : r.errors = []
      · left
        simp [Kraken.interpretReply, hs, he]
      · right; right
        simp [Kraken.interpretReply, hs, he]
    · right; left
      simp [Kraken.interpretReply, hs]

theorem kraken_request_outcomes_instance :
    Kraken.interpretReply (⟨503, [], "x"⟩ : Kraken.HttpReply String)
        = .serverError 503
      ∧ Kraken.interpretReply (⟨200, ["EOrder:Invalid nonce"], "x"⟩ : Kraken.HttpReply String)
        = .responseError ["EOrder:Invalid nonce"]
      ∧ Kraken.interpretReply (⟨200, [], "ok"⟩ : Kraken.HttpReply String) = .ok "ok" :=
  ⟨(kraken_request_outcomes _).1 (by decide),
   (kraken_request_outcomes _).2.1 rfl (by decide),
   (kraken_request_outcomes _).2.2.1 rfl rfl⟩

/-- C4: the pair parser returns a pair whose base is the prefix and quote the
suffix of a split at which both halves are known symbols, preferring the
longest valid base prefix; it fails when no such split exists; in particular
`XBTUSD` over known symbols XBT and USD parses as (XBT, USD) and `ZZZUSD`
with ZZZ unknown fails. -/
theorem kraken_str2pair_spec :
    (∀ (syms : List String) (s : String) (p : Kraken.CurrencyPair),
      Kraken.str2pair syms s = some p →
        p.base.data ++ p.quote.data = s.data
          ∧ p.base ∈ syms ∧ p.quote ∈ syms
          ∧ 1 ≤ p.base.data.length ∧ p.base.data.length < s.data.length
          ∧ p.base = Kraken.strTake s p.base.data.length
          ∧ p.quote = Kraken.strDrop s p.base.data.length
          ∧ (∀ k, p.base.data.length < k → k < s.data.length →
              ¬(Kraken.strTake s k ∈ syms ∧ Kraken.strDrop s k ∈ syms)))
      ∧ (∀ (syms : List String) (s : String),
          (∀ j, 1 ≤ j → j < s.data.length →
            ¬(Kraken.strTake s j ∈ syms ∧ Kraken.strDrop s j ∈ syms)) →
          Kraken.str2pair syms s = none)
      ∧ Kraken.str2pair ["XBT", "USD"] "XBTUSD" = some ⟨"XBT", "USD"⟩
      ∧ Kraken.str2pair ["XBT", "USD"] "ZZZUSD" = none := by
  refine ⟨?_, ?_, by decide, by decide⟩
  · intro syms s p h
    unfold Kraken.str2pair at h
    split at h
    · exact Option.noConfusion h
    · next n hn =>
      obtain ⟨j, hj1, hj2, hp, ht, hd, hmax⟩ := str2pairGo_some syms s n p h
      subst hp
      have hblen : (Kraken.strTake s j).data.length = j := by
        simp only [Kraken.strTake, List.length_take]
        omega
      refine ⟨?_, ht, hd, ?_, ?_, ?_, ?_, ?_⟩
      · show (Kraken.strTake s j).data ++ (Kraken.strDrop s j).data = s.data
        simp [Kraken.strTake, Kraken.strDrop]
      · show 1 ≤ (Kraken.strTake s j).data.length
        rw [hblen]
        exact hj1
      · show (Kraken.strTake s j).data.length < s.data.length
        rw [hblen]
        omega
      · show Kraken.strTake s j = Kraken.strTake s ((Kraken.strTake s j).data.length)
        rw [hblen]
      · show Kraken.strDrop s j = Kraken.strDrop s ((Kraken.strTake s j).data.length)
        rw [hblen]
      · intro k hk1 hk2
        rw [hblen] at hk1
        exact hmax k hk1 (by omega)
  · intro syms s h
    unfold Kraken.str2pair
    split
    · rfl
    · next n hn =>
      exact str2pairGo_none syms s n (fun j hj1 hj2 => h j hj1 (by omega))

theorem kraken_str2pair_spec_instance :
    "XBT".data ++ "USD".data = "XBTUSD".data
      ∧ "XBT" ∈ ["XBT", "USD"] ∧ "USD" ∈ ["XBT", "USD"] :=
  let h := kraken_str2pair_spec.1 ["XBT", "USD"] "XBTUSD" ⟨"XBT", "USD"⟩ (by decide)
  ⟨h.1, h.2.1, h.2.2.1⟩

/-- C5: an order whose volume is below the minimum-limits entry for its
normalized base asset is rejected locally with a validation error, and no
network call is made. -/
theorem kraken_place_min_check (o : Kraken.OrderT) (m : ℚ)
    (hm : Kraken.minTradable (Kraken.sanitizePair o.pair).base = some m)
    (hv : o.volume < m) :
    Kraken.place o = .localError "volume below minimum"
      ∧ ∀ (p : Kraken.CurrencyPair) (v : ℚ), Kraken.place o ≠ .networkCall p v := by
  have hp : Kraken.place o = .localError "volume below minimum" := by
    simp [Kraken.place, hm, hv]
  exact ⟨hp, fun p v hc => by rw [hp] at hc; exact Kraken.PlaceOutcome.noConfusion hc⟩

theorem kraken_place_min_check_instance :
    Kraken.place ⟨"", ⟨"XBT", "USD"⟩, 0.001⟩ = .localError "volume below minimum" :=
  (kraken_place_min_check ⟨"", ⟨"XBT", "USD"⟩, 0.001⟩ 0.002
    (by simp [Kraken.minTradable, Kraken.minimumLimits, List.lookup,
      Kraken.sanitizePair, Kraken.sanitizeSymbol])
    (by norm_num)).1

/-- C6: pair sanitization is idempotent; the symbol BTC becomes XBT after one
application and stays XBT after a second, and every other symbol passes
through unchanged. -/
theorem kraken_sanitizePair_idempotent :
    (∀ p : Kraken.CurrencyPair,
        Kraken.sanitizePair (Kraken.sanitizePair p) = Kraken.sanitizePair p)
      ∧ Kraken.sanitizeSymbol "BTC" = "XBT"
      ∧ (∀ p : Kraken.CurrencyPair, p.base = "BTC" →
          (Kraken.sanitizePair p).base = "XBT"
            ∧ (Kraken.sanitizePair (Kraken.sanitizePair p)).base = "XBT")
      ∧ (∀ s : String, s ≠ "BTC" → Kraken.sanitizeSymbol s = s) := by
  have hsym : ∀ s, Kraken.sanitizeSymbol (Kraken.sanitizeSymbol s) = Kraken.sanitizeSymbol s := by
    intro s
    by_cases h : s = "BTC" <;> simp [Kraken.sanitizeSymbol, h]
  refine ⟨fun p => ?_, by simp [Kraken.sanitizeSymbol], fun p hb => ?_, fun s hs => ?_⟩
  · simp [Kraken.sanitizePair, hsym]
  · constructor <;> simp [Kraken.sanitizePair, Kraken.sanitizeSymbol, hb]
  · simp [Kraken.sanitizeSymbol, hs]

theorem kraken_sanitizePair_idempotent_instance :
    (Kraken.sanitizePair ⟨"BTC", "USD"⟩).base = "XBT"
      ∧ Kraken.sanitizeSymbol "ETH" = "ETH" :=
  ⟨(kraken_sanitizePair_idempotent.2.2.1 ⟨"BTC", "USD"⟩ rfl).1,
   kraken_sanitizePair_idempotent.2.2.2 "ETH" (by decide)⟩

/-- C7: every nonce is a 19-character decimal string: the wall-clock seconds
as a zero-padded 10-digit decimal followed by the 9-digit sub-second
component of a higher-resolution clock reading. -/
theorem kraken_nonce_format (t : Nat) (hw : t < 10 ^ 19) :
    (Kraken.nonceOf t).length = 19
      ∧ (∀ c ∈ (Kraken.nonceOf t).data, c.isDigit = true)
      ∧ Kraken.nonceOf t = Kraken.zeroPad 10 (t / 10 ^ 9) ++ Kraken.zeroPad 9 (t % 10 ^ 9)
      ∧ (Kraken.zeroPad 10 (t / 10 ^ 9)).length = 10
      ∧ valOfDigits (digitsPad 10 (t / 10 ^ 9)) = t / 10 ^ 9
      ∧ (Kraken.zeroPad 9 (t % 10 ^ 9)).length = 9
      ∧ valOfDigits (digitsPad 9 (t % 10 ^ 9)) = t % 10 ^ 9 := by
  have hsec : t / 10 ^ 9 < 10 ^ 10 := by
    apply Nat.div_lt_of_lt_mul
    calc t < 10 ^ 19 := hw
      _ = 10 ^ 9 * 10 ^ 10 := by norm_num
  have hsub : t % 10 ^ 9 < 10 ^ 9 := Nat.mod_lt _ (by norm_num)
  refine ⟨?_, ?_, rfl, ?_, valOfDigits_digitsPad_of_lt _ _ hsec, ?_,
    valOfDigits_digitsPad_of_lt _ _ hsub⟩
  · show (Kraken.nonceOf t).data.length = 19
    rw [nonceOf_data, List.length_map, nonceDigits_length]
  · intro c hc
    rw [nonceOf_data] at hc
    obtain ⟨d, hd, rfl⟩ := List.mem_map.mp hc
    exact digitChar_isDigit d (nonceDigits_lt t d hd)
  · show (Kraken.zeroPad 10 (t / 10 ^ 9)).data.length = 10
    simp [Kraken.zeroPad, digitsPad_length]
  · show (Kraken.zeroPad 9 (t % 10 ^ 9)).data.length = 9
    simp [Kraken.zeroPad, digitsPad_length]

theorem kraken_nonce_format_instance :
    (Kraken.nonceOf 1759999999123456789).length = 19
      ∧ Kraken.nonceOf 1759999999123456789
          = Kraken.zeroPad 10 (1759999999123456789 / 10 ^ 9)
            ++ Kraken.zeroPad 9 (1759999999123456789 % 10 ^ 9)
      ∧ valOfDigits (digitsPad 10 (1759999999123456789 / 10 ^ 9))
          = 1759999999123456789 / 10 ^ 9 :=
  let h := kraken_nonce_format 1759999999123456789 (by norm_num)
  ⟨h.1, h.2.2.1, h.2.2.2.2.1⟩

/-- C8: for a symbol absent from the static minimum-limits table the
validator fails closed: the minimum lookup yields no permissive value and any
order placement for that asset is rejected locally rather than sent. -/
theorem kraken_minTradable_fail_closed (s : String)
    (h : s ∉ Kraken.minimumLimits.map Prod.fst) :
    Kraken.minTradable s = none
      ∧ ∀ o : Kraken.OrderT, (Kraken.sanitizePair o.pair).base = s →
          Kraken.place o = .localError "unknown minimum"
            ∧ ∀ (p : Kraken.CurrencyPair) (v : ℚ), Kraken.place o ≠ .networkCall p v := by
  have hnone : Kraken.minTradable s = none := lookup_eq_none_of_not_mem_keys _ s h
  refine ⟨hnone, fun o ho => ?_⟩
  have hp : Kraken.place o = .localError "unknown minimum" := by
    simp [Kraken.place, ho, hnone]
  exact ⟨hp, fun p v hc => by rw [hp] at hc; exact Kraken.PlaceOutcome.noConfusion hc⟩

theorem kraken_minTradable_fail_closed_instance :
    Kraken.minTradable "FOO" = none
      ∧ Kraken.place ⟨"x", ⟨"FOO", "USD"⟩, 1⟩ = .localError "unknown minimum" :=
  let h := kraken_minTradable_fail_closed "FOO" (by decide)
  ⟨h.1, (h.2 ⟨"x", ⟨"FOO", "USD"⟩, 1⟩ (by decide)).1⟩

/-- C9: cancelling an order whose identifier is empty fails with a local
validation error before any network call is made. -/
theorem kraken_cancel_empty_id (o : Kraken.OrderT) (h : o.txid = "") :
    Kraken.cancel o = .localError "empty txid"
      ∧ ∀ t : String, Kraken.cancel o ≠ .networkCall t := by
  have hc : Kraken.cancel o = .localError "empty txid" := by
    simp [Kraken.cancel, h]
  exact ⟨hc, fun t ht => by rw [hc] at ht; exact Kraken.CancelOutcome.noConfusion ht⟩

theorem kraken_cancel_empty_id_instance :
    Kraken.cancel ⟨"", ⟨"XBT", "USD"⟩, 1⟩ = .localError "empty txid" :=
  (kraken_cancel_empty_id ⟨"", ⟨"XBT", "USD"⟩, 1⟩ rfl).1

/-- C10: the minimum-limits table maps both the alias BTC and the
exchange-internal XBT to the same minimum 0.002, so for every pair with base
BTC the minimum-trade lookup agrees with and without prior normalization. -/
theorem kraken_minLimits_btc_xbt :
    Kraken.minTradable "BTC" = some 0.002
      ∧ Kraken.minTradable "XBT" = some 0.002
      ∧ Kraken.minTradable "BTC" = Kraken.minTradable "XBT"
      ∧ ∀ p : Kraken.CurrencyPair, p.base = "BTC" →
          Kraken.minTradable (Kraken.sanitizePair p).base = Kraken.minTradable p.base := by
  refine ⟨?_, ?_, ?_, fun p hb => ?_⟩
  · simp [Kraken.minTradable, Kraken.minimumLimits, List.lookup]
  · simp [Kraken.minTradable, Kraken.minimumLimits, List.lookup]
  · simp [Kraken.minTradable, Kraken.minimumLimits, List.lookup]
  · simp [Kraken.sanitizePair, Kraken.sanitizeSymbol, hb, Kraken.minTradable,
      Kraken.minimumLimits, List.lookup]

theorem kraken_minLimits_btc_xbt_instance :
    Kraken.minTradable (Kraken.sanitizePair ⟨"BTC", "EUR"⟩).base
      = Kraken.minTradable "BTC" :=
  kraken_minLimits_btc_xbt.2.2.2 ⟨"BTC", "EUR"⟩ rfl
